import Mathlib

/-!
Verification of the YouCompleteMe configuration script `.ycm_extra_conf.py`
of the eris repository, against its natural-language specification.

Python strings are embedded as lists of characters (`PyStr`); the string
operations used by the script (`startswith`, slicing, `os.path.join`,
`str.split`, `str.strip`, `str.find`) are translated below from their
CPython semantics.  Fallible computations (unhandled Python exceptions)
are embedded as `Except PyError`.
-/

/-- A Python string, embedded as its list of characters. -/
abbrev PyStr := List Char

/-- Python `s.startswith(pre)`. -/
def startswith (s pre : PyStr) : Bool := pre.isPrefixOf s

/-- POSIX `os.path.join(a, b)` (the two-argument form used by the script):
if `b` is absolute it wins; otherwise the parts are glued with a single
separator unless `a` is empty or already ends in one. -/
def os_path_join (a b : PyStr) : PyStr :=
  if startswith b ['/'] then b
  else if a = [] then b
  else if a.getLast? = some '/' then a ++ b
  else a ++ '/' :: b

/-- The module-level `flags` list of the script (lines 5-12). -/
def flags : List PyStr :=
  [ "-Wall".data, "-Wextra".data, "-std=c++11".data,
    "-I".data, ".".data, "-I".data, "/usr/include/eigen3".data,
    "-DERIS_TESTS".data ]

/-- The `path_flags` list of `MakeRelativePathsInFlagsAbsolute` (line 22). -/
def path_flags : List PyStr :=
  [ "-isystem".data, "-I".data, "-iquote".data, "--sysroot=".data ]

/-- Outcome of the inner `for path_flag in path_flags` loop (lines 31-39):
either no entry of `path_flags` matched, or the first match was an exact
equality (`flag == path_flag`), or a strict `flag.startswith(path_flag)`. -/
inductive PathMatch where
  | none : PathMatch
  | exact (p : PyStr) : PathMatch
  | strict (p : PyStr) : PathMatch
deriving DecidableEq

/-- The inner loop over `path_flags` with its two tests and `break`,
as a first-match scan. -/
def matchPathFlag (flag : PyStr) : List PyStr → PathMatch
  | [] => PathMatch.none
  | p :: ps =>
    if flag == p then PathMatch.exact p
    else if p.isPrefixOf flag then PathMatch.strict p
    else matchPathFlag flag ps

/-- The value of `make_next_absolute` after processing `flag`: it is set
exactly when `flag` equals one of the `path_flags` entries (line 33),
independently of the incoming state. -/
def nextState (flag : PyStr) : Bool :=
  match matchPathFlag flag path_flags with
  | PathMatch.exact _ => true
  | _ => false

/-- One iteration of the `for flag in flags` loop body (lines 24-39):
returns the computed `new_flag` together with the outgoing
`make_next_absolute` state.  Note that the `path_flags` scan runs even
when `make_next_absolute` was set, and its `startswith` branch overrides
the joined value. -/
def processFlag (wd : PyStr) (make_next : Bool) (flag : PyStr) : PyStr × Bool :=
  let nf0 := if make_next && !(startswith flag ['/']) then os_path_join wd flag else flag
  match matchPathFlag flag path_flags with
  | PathMatch.exact _ => (nf0, true)
  | PathMatch.strict p => (p ++ os_path_join wd (flag.drop p.length), false)
  | PathMatch.none => (nf0, false)

/-- The whole loop of lines 23-42, threading `make_next_absolute` and
appending `new_flag` only when it is truthy (non-empty, line 41). -/
def mrpifaGo (wd : PyStr) : Bool → List PyStr → List PyStr
  | _, [] => []
  | mk, f :: fs =>
    let r := processFlag wd mk f
    if r.1 = [] then mrpifaGo wd r.2 fs else r.1 :: mrpifaGo wd r.2 fs

/-- `MakeRelativePathsInFlagsAbsolute(flags, working_directory)`
(lines 17-43).  A falsy (empty) working directory returns a copy of the
input unchanged. -/
def MakeRelativePathsInFlagsAbsolute (fl : List PyStr) (working_directory : PyStr) :
    List PyStr :=
  if working_directory = [] then fl else mrpifaGo working_directory false fl

/-! ## The system-include scraper (lines 45-57) and `FlagsForFile` (59-64) -/

/-- Python `hay.find(needle)`-style leftmost substring search, returning the
index of the first position where `needle` occurs, if any. -/
def findSub (needle : PyStr) : PyStr → Option Nat
  | [] => if needle.isPrefixOf [] then some 0 else Option.none
  | c :: t =>
    if needle.isPrefixOf (c :: t) then some 0
    else (findSub needle t).map (· + 1)

/-- Python `needle in hay` as used via `p.find(...) < 0` (line 54). -/
def containsSub (hay needle : PyStr) : Bool := (findSub needle hay).isSome

/-- The literal part of the regex of line 47 before the three `.` wildcards. -/
def marker1Pre : PyStr := "#include <".data

/-- The literal part of the regex of line 47 after the three `.` wildcards. -/
def marker1Post : PyStr := "> search starts here:".data

/-- The closing literal of the regex of line 47. -/
def marker2 : PyStr := "End of search list".data

/-- Whether the opening pattern of the regex (the literal
`#include <`, three arbitrary characters, then `> search starts here:`,
with `re.DOTALL` in force) matches at the start of `s`. -/
def marker1At (s : PyStr) : Bool :=
  marker1Pre.isPrefixOf s && marker1Post.isPrefixOf (s.drop (marker1Pre.length + 3))

/-- Index of the leftmost match of the opening pattern, if any. -/
def findMarker1 : PyStr → Option Nat
  | [] => if marker1At [] then some 0 else Option.none
  | c :: t =>
    if marker1At (c :: t) then some 0
    else (findMarker1 t).map (· + 1)

/-- `re.search(regex, output).group('list')` for the regex of line 47:
the lazy group captures the text from the end of the leftmost match of the
opening pattern up to the first subsequent occurrence of
`End of search list`; the search fails (`None`) when either part is
missing.  (This models the leftmost-then-lazy semantics of `re.search`;
it agrees with CPython whenever the leftmost occurrence of the opening
pattern is followed by the closing literal, which holds in every scenario
considered below.) -/
def regexSearchList (output : PyStr) : Option PyStr :=
  match findMarker1 output with
  | Option.none => Option.none
  | some i =>
    let rest := output.drop (i + (marker1Pre.length + 3) + marker1Post.length)
    match findSub marker2 rest with
    | Option.none => Option.none
    | some j => some (rest.take j)

/-- Python `s.split(sep)` for a one-character separator: keeps empty
pieces, yields one piece more than the number of separators. -/
def pySplit (sep : Char) : PyStr → List PyStr
  | [] => [[]]
  | c :: rest =>
    match pySplit sep rest with
    | [] => [[]]
    | l :: ls => if c == sep then [] :: l :: ls else (c :: l) :: ls

/-- The characters removed by Python `str.strip()`. -/
def isPySpace (c : Char) : Bool :=
  c == ' ' || c == '\t' || c == '\n' || c == '\r' || c == Char.ofNat 11 || c == Char.ofNat 12

/-- Python `s.strip()`. -/
def pyStrip (s : PyStr) : PyStr :=
  ((s.dropWhile isPySpace).reverse.dropWhile isPySpace).reverse

/-- The loop of lines 52-56: for each line of the captured group, strip it,
and when it is non-empty and does not contain `(framework directory)`,
append the two entries `-isystem` and the line. -/
def buildIncludes : List PyStr → List PyStr
  | [] => []
  | l :: ls =>
    let p := pyStrip l
    if p.length > 0 && !(containsSub p "(framework directory)".data) then
      "-isystem".data :: p :: buildIncludes ls
    else
      buildIncludes ls

/-- The pure parsing part of `LoadSystemIncludes` (lines 47 and 52-57),
as a function of the combined stdout+stderr text of the compiler probe:
regex capture, split on line breaks, per-line strip/filter, and the
`-isystem` pairing.  `Option.none` is the case in which `re.search`
returns `None` (the markers are absent) and line 52 would fault. -/
def DiscoverSystemIncludesParse (output : PyStr) : Option (List PyStr) :=
  (regexSearchList output).map (fun grp => buildIncludes (pySplit '\n' grp))

/-- The unhandled Python exceptions that the script can raise, plus the
typed error kind named by the specification.

`toolInvocationError` is modelled from the spec: the spec's §7 error
taxonomy names a `ToolInvocationError`; the source defines no such type,
and the constructor exists only so that statements about it can be
written. -/
inductive PyError where
  | nameError (n : String) : PyError
  | attributeError (n : String) : PyError
  | osError : PyError
  | toolInvocationError : PyError
deriving DecidableEq

/-- The ambient behaviour of the `clang -v -E -x c++ -` probe that
`LoadSystemIncludes` spawns: either the process fails to launch (the
binary is missing or cannot start), or it runs and produces a combined
stdout+stderr text. -/
inductive CompilerBehavior where
  | launchFailure : CompilerBehavior
  | output (text : PyStr) : CompilerBehavior

/-- The names bound at module level by the script: its three imports
(line 1-3) and its module-level definitions.  `subprocess` is not among
them. -/
def moduleNames : List String :=
  [ "os", "re", "ycm_core", "flags", "DirectoryOfThisScript",
    "MakeRelativePathsInFlagsAbsolute", "LoadSystemIncludes", "FlagsForFile" ]

/-- `LoadSystemIncludes()` (lines 46-57).  Line 47 (compiling the regex)
always succeeds; line 48 then resolves the global name `subprocess`
before anything is spawned, raising `NameError` when it is unbound;
only then would the probe run and its output be parsed (an absent
marker makes `re.search` return `None`, so `.group` on line 52 raises
`AttributeError`). -/
def LoadSystemIncludes (compiler : CompilerBehavior) : Except PyError (List PyStr) :=
  if moduleNames.contains "subprocess" then
    match compiler with
    | CompilerBehavior.launchFailure => Except.error PyError.osError
    | CompilerBehavior.output text =>
      match DiscoverSystemIncludesParse text with
      | Option.none => Except.error (PyError.attributeError "group")
      | some incs => Except.ok incs
  else
    Except.error (PyError.nameError "subprocess")

/-- The dictionary returned by `FlagsForFile` (lines 61-64). -/
structure PyResult where
  flags : List PyStr
  do_cache : Bool
deriving DecidableEq

/-- `FlagsForFile(filename, **kwargs)` (lines 59-64), as a function of the
filename, of the directory of the script (`DirectoryOfThisScript()`), and
of the ambient compiler-probe behaviour.  The filename parameter is
accepted and never used, exactly as in the source. -/
def FlagsForFile (_filename : PyStr) (script_dir : PyStr) (compiler : CompilerBehavior) :
    Except PyError PyResult :=
  match LoadSystemIncludes compiler with
  | Except.error e => Except.error e
  | Except.ok incs =>
    Except.ok ⟨MakeRelativePathsInFlagsAbsolute flags script_dir ++ incs, true⟩

/-- The `make_next_absolute` state after the loop has consumed a list of
flags (it depends only on the flags, not on the emitted values). -/
def goState (mk : Bool) : List PyStr → Bool
  | [] => mk
  | f :: fs => goState (nextState f) fs

/-! ## The stability invariant behind idempotence

An output entry of the loop is `GoodEntry mk f` when reprocessing it with
incoming state `mk` reproduces it unchanged: it is non-empty, any strict
`path_flags` match it has carries an already-absolute remainder, and if
it sits right after a bare path flag it is absolute or such a strict
match.  `Stable` chains this along a list, threading the state the loop
itself would compute. -/

def GoodEntry (mk : Bool) (f : PyStr) : Prop :=
  f ≠ [] ∧
  (∀ q, matchPathFlag f path_flags = PathMatch.strict q →
    startswith (f.drop q.length) ['/'] = true) ∧
  (mk = true → startswith f ['/'] = true ∨
    ∃ q, matchPathFlag f path_flags = PathMatch.strict q)

inductive Stable : Bool → List PyStr → Prop where
  | nil (mk : Bool) : Stable mk []
  | cons (mk : Bool) (f : PyStr) (fs : List PyStr) :
      GoodEntry mk f → Stable (nextState f) fs → Stable mk (f :: fs)

/-- The include-pair construction exactly as the spec words it: split the
captured text on line breaks, trim each line, discard empty lines and
lines containing `(framework directory)`, and emit the pair
(`-isystem`, line) for each remaining line, in order.  Spec-side
definition used to state claim C9 as a refinement of the code-side
`DiscoverSystemIncludesParse`. -/
def specIncludePairs (captured : PyStr) : List PyStr :=
  (((pySplit '\n' captured).map pyStrip).filter
    (fun p => !p.isEmpty && !(containsSub p "(framework directory)".data))).flatMap
    (fun p => ["-isystem".data, p])

/-! ## Helper lemmas about the embedded string operations -/

theorem startswith_slash_shape {f : PyStr} (h : startswith f ['/'] = true) :
    ∃ t, f = '/' :: t := by
  cases f with
  | nil => simp [startswith, List.isPrefixOf] at h
  | cons c t =>
    refine ⟨t, ?_⟩
    simp [startswith, List.isPrefixOf, Bool.and_eq_true, beq_iff_eq] at h
    simp [h.symm]

theorem startswith_cons_slash (t : PyStr) : startswith ('/' :: t) ['/'] = true := by
  simp [startswith, List.isPrefixOf]

theorem isPrefixOf_append_drop :
    ∀ (p l : PyStr), p.isPrefixOf l = true → p ++ l.drop p.length = l := by
  intro p
  induction p with
  | nil => intro l _; simp
  | cons a as ih =>
    intro l h
    cases l with
    | nil => simp [List.isPrefixOf] at h
    | cons b bs =>
      simp only [List.isPrefixOf, Bool.and_eq_true, beq_iff_eq] at h
      obtain ⟨rfl, h2⟩ := h
      simpa using ih bs h2

theorem os_path_join_abs (a b : PyStr) (h : startswith b ['/'] = true) :
    os_path_join a b = b := by
  simp [os_path_join, h]

theorem os_path_join_ne_nil (wd f : PyStr) (h : wd ≠ []) : os_path_join wd f ≠ [] := by
  unfold os_path_join
  by_cases hb : startswith f ['/'] = true
  · obtain ⟨t, rfl⟩ := startswith_slash_shape hb
    simp [hb]
  · simp only [Bool.not_eq_true] at hb
    simp only [hb, if_false, h, if_neg h]
    by_cases hl : wd.getLast? = some '/' <;> simp [hl, h]

theorem startswith_os_path_join (wd f : PyStr) (hwd : startswith wd ['/'] = true) :
    startswith (os_path_join wd f) ['/'] = true := by
  unfold os_path_join
  by_cases hb : startswith f ['/'] = true
  · simp [hb]
  · obtain ⟨w, rfl⟩ := startswith_slash_shape hwd
    simp only [Bool.not_eq_true] at hb
    simp only [hb, if_false]
    by_cases hl : ('/' :: w).getLast? = some '/' <;>
      simp [hl, startswith_cons_slash]

/-! ## Helper lemmas about the `path_flags` scan -/

theorem matchPathFlag_exact_spec {f q : PyStr} :
    ∀ {ps : List PyStr}, matchPathFlag f ps = PathMatch.exact q → f = q ∧ q ∈ ps := by
  intro ps
  induction ps with
  | nil => intro h; simp [matchPathFlag] at h
  | cons p ps ih =>
    intro h
    simp only [matchPathFlag] at h
    by_cases h1 : (f == p) = true
    · simp only [h1, if_true] at h
      cases h
      exact ⟨by simpa [beq_iff_eq] using h1, List.mem_cons_self _ _⟩
    · simp only [h1, if_false] at h
      by_cases h2 : p.isPrefixOf f = true
      · simp [h2] at h
      · simp only [h2, if_false] at h
        obtain ⟨he, hm⟩ := ih h
        exact ⟨he, List.mem_cons_of_mem _ hm⟩

theorem matchPathFlag_strict_spec {f q : PyStr} :
    ∀ {ps : List PyStr}, matchPathFlag f ps = PathMatch.strict q →
      q.isPrefixOf f = true ∧ q ∈ ps := by
  intro ps
  induction ps with
  | nil => intro h; simp [matchPathFlag] at h
  | cons p ps ih =>
    intro h
    simp only [matchPathFlag] at h
    by_cases h1 : (f == p) = true
    · simp [h1] at h
    · simp only [h1, if_false] at h
      by_cases h2 : p.isPrefixOf f = true
      · simp only [h2, if_true] at h
        cases h
        exact ⟨h2, List.mem_cons_self _ _⟩
      · simp only [h2, if_false] at h
        obtain ⟨he, hm⟩ := ih h
        exact ⟨he, List.mem_cons_of_mem _ hm⟩

theorem matchPathFlag_slash (t : PyStr) :
    matchPathFlag ('/' :: t) path_flags = PathMatch.none := rfl

theorem matchPathFlag_self {p : PyStr} (hp : p ∈ path_flags) :
    matchPathFlag p path_flags = PathMatch.exact p := by
  simp only [path_flags, List.mem_cons, List.not_mem_nil, or_false] at hp
  rcases hp with rfl | rfl | rfl | rfl <;> rfl

theorem matchPathFlag_mem_append_slash {p : PyStr} (hp : p ∈ path_flags) (s : PyStr) :
    matchPathFlag (p ++ '/' :: s) path_flags = PathMatch.strict p := by
  simp only [path_flags, List.mem_cons, List.not_mem_nil, or_false] at hp
  rcases hp with rfl | rfl | rfl | rfl <;> rfl

theorem mem_path_flags_ne_nil {p : PyStr} (hp : p ∈ path_flags) : p ≠ [] := by
  simp only [path_flags, List.mem_cons, List.not_mem_nil, or_false] at hp
  rcases hp with rfl | rfl | rfl | rfl <;> decide

theorem mem_path_flags_not_abs {p : PyStr} (hp : p ∈ path_flags) :
    startswith p ['/'] = false := by
  simp only [path_flags, List.mem_cons, List.not_mem_nil, or_false] at hp
  rcases hp with rfl | rfl | rfl | rfl <;> decide

/-! ## Helper lemmas about the main loop -/

theorem processFlag_snd (wd : PyStr) (mk : Bool) (f : PyStr) :
    (processFlag wd mk f).2 = nextState f := by
  unfold processFlag nextState
  cases h : matchPathFlag f path_flags <;> simp [h]

theorem mrpifaGo_append (wd : PyStr) (mk : Bool) (xs ys : List PyStr) :
    mrpifaGo wd mk (xs ++ ys) = mrpifaGo wd mk xs ++ mrpifaGo wd (goState mk xs) ys := by
  induction xs generalizing mk with
  | nil => simp [mrpifaGo, goState]
  | cons f fs ih =>
    by_cases h : (processFlag wd mk f).1 = [] <;>
      simp [mrpifaGo, h, processFlag_snd, ih, goState]

theorem goState_append (mk : Bool) (xs ys : List PyStr) :
    goState mk (xs ++ ys) = goState (goState mk xs) ys := by
  induction xs generalizing mk <;> simp [goState, *]

theorem mrpifaGo_cons_joined (wd f : PyStr) (l : List PyStr) (hwd : wd ≠ [])
    (habs : startswith f ['/'] = false)
    (hm : matchPathFlag f path_flags = PathMatch.none) :
    mrpifaGo wd true (f :: l) = os_path_join wd f :: mrpifaGo wd false l := by
  have h1 : processFlag wd true f = (os_path_join wd f, false) := by
    simp [processFlag, habs, hm]
  simp [mrpifaGo, h1, os_path_join_ne_nil _ _ hwd]

theorem mrpifaGo_cons_abs (wd f : PyStr) (l : List PyStr)
    (habs : startswith f ['/'] = true) :
    mrpifaGo wd true (f :: l) = f :: mrpifaGo wd false l := by
  obtain ⟨t, rfl⟩ := startswith_slash_shape habs
  have h1 : processFlag wd true ('/' :: t) = ('/' :: t, false) := by
    simp [processFlag, habs, matchPathFlag_slash]
  simp [mrpifaGo, h1]

/-- A `Stable` list is a fixed point of the loop (for any working
directory). -/
theorem stable_fixed (wd : PyStr) : ∀ {mk : Bool} {l : List PyStr},
    Stable mk l → mrpifaGo wd mk l = l := by
  intro mk l h
  induction h with
  | nil mk => simp [mrpifaGo]
  | cons mk f fs hg hs ih =>
    obtain ⟨hne, hstrict, hmk⟩ := hg
    have hemit : (processFlag wd mk f).1 = f := by
      cases hmatch : matchPathFlag f path_flags with
      | exact q =>
        cases mk with
        | false => simp [processFlag, hmatch]
        | true =>
          rcases hmk rfl with habs | ⟨q', hq'⟩
          · simp [processFlag, hmatch, habs]
          · rw [hmatch] at hq'; cases hq'
      | strict q =>
        have hd := hstrict q hmatch
        have hpre := (matchPathFlag_strict_spec hmatch).1
        simp [processFlag, hmatch, os_path_join_abs _ _ hd,
          isPrefixOf_append_drop q f hpre]
      | none =>
        cases mk with
        | false => simp [processFlag, hmatch]
        | true =>
          rcases hmk rfl with habs | ⟨q', hq'⟩
          · simp [processFlag, hmatch, habs]
          · rw [hmatch] at hq'; cases hq'
    simp [mrpifaGo, hemit, processFlag_snd, hne, ih]

/-- For an absolute working directory, every output of the loop is
`Stable`: the incoming state `inc` of a later re-run may be assumed
`true` only where the first pass's state was also `true`. -/
theorem go_stable (wd : PyStr) (hwd : startswith wd ['/'] = true) :
    ∀ (l : List PyStr) (mk inc : Bool), (inc = true → mk = true) →
      Stable inc (mrpifaGo wd mk l) := by
  have hwdne : wd ≠ [] := by
    obtain ⟨w, hw⟩ := startswith_slash_shape hwd
    simp [hw]
  intro l
  induction l with
  | nil =>
    intro mk inc _
    exact Stable.nil inc
  | cons f fs ih =>
    intro mk inc hinc
    cases hmatch : matchPathFlag f path_flags with
    | exact q =>
      obtain ⟨hfq, hqmem⟩ := matchPathFlag_exact_spec hmatch
      subst hfq
      have hnext : nextState f = true := by simp [nextState, hmatch]
      cases mk with
      | false =>
        have hemit : processFlag wd false f = (f, true) := by
          simp [processFlag, hmatch]
        have hne : f ≠ [] := mem_path_flags_ne_nil hqmem
        have hincf : inc = false := by
          cases inc with
          | false => rfl
          | true => exact absurd (hinc rfl) (by simp)
        subst hincf
        simp only [mrpifaGo, hemit, if_neg hne]
        exact Stable.cons false f _
          ⟨hne, (by intro q' hq'; rw [hmatch] at hq'; cases hq'), (by simp)⟩
          (hnext ▸ ih true (nextState f) (fun _ => rfl))
      | true =>
        have habs : startswith f ['/'] = false := mem_path_flags_not_abs hqmem
        have hemit : processFlag wd true f = (os_path_join wd f, true) := by
          simp [processFlag, hmatch, habs]
        have hne : os_path_join wd f ≠ [] := os_path_join_ne_nil wd f hwdne
        have hb : startswith (os_path_join wd f) ['/'] = true :=
          startswith_os_path_join wd f hwd
        obtain ⟨t, ht⟩ := startswith_slash_shape hb
        have hbm : matchPathFlag (os_path_join wd f) path_flags = PathMatch.none := by
          rw [ht]; exact matchPathFlag_slash t
        have hbnext : nextState (os_path_join wd f) = false := by
          simp [nextState, hbm]
        simp only [mrpifaGo, hemit, if_neg hne]
        exact Stable.cons inc (os_path_join wd f) _
          ⟨hne, (by intro q' hq'; rw [hbm] at hq'; cases hq'), fun _ => Or.inl hb⟩
          (hbnext ▸ ih true (nextState (os_path_join wd f)) (by simp [hbnext]))
    | strict q =>
      obtain ⟨hqpre, hqmem⟩ := matchPathFlag_strict_spec hmatch
      have hemit : processFlag wd mk f
          = (q ++ os_path_join wd (f.drop q.length), false) := by
        simp [processFlag, hmatch]
      have hjabs : startswith (os_path_join wd (f.drop q.length)) ['/'] = true :=
        startswith_os_path_join wd _ hwd
      obtain ⟨s, hsx⟩ := startswith_slash_shape hjabs
      have hqne : q ≠ [] := mem_path_flags_ne_nil hqmem
      have hne : q ++ os_path_join wd (f.drop q.length) ≠ [] := by
        simp [hqne]
      have hbm : matchPathFlag (q ++ os_path_join wd (f.drop q.length)) path_flags
          = PathMatch.strict q := by
        rw [hsx]; exact matchPathFlag_mem_append_slash hqmem s
      have hbnext : nextState (q ++ os_path_join wd (f.drop q.length)) = false := by
        simp [nextState, hbm]
      simp only [mrpifaGo, hemit, if_neg hne]
      refine Stable.cons inc _ _
        ⟨hne, ?_, fun _ => Or.inr ⟨q, hbm⟩⟩
        (hbnext ▸ ih false (nextState (q ++ os_path_join wd (f.drop q.length)))
          (by simp [hbnext]))
      intro q' hq'
      rw [hbm] at hq'
      cases hq'
      rw [List.drop_left]
      exact hjabs
    | none =>
      have hnext : nextState f = false := by simp [nextState, hmatch]
      cases mk with
      | true =>
        by_cases habs : startswith f ['/'] = true
        · have hemit : processFlag wd true f = (f, false) := by
            simp [processFlag, hmatch, habs]
          obtain ⟨t, ht⟩ := startswith_slash_shape habs
          have hne : f ≠ [] := by simp [ht]
          simp only [mrpifaGo, hemit, if_neg hne]
          exact Stable.cons inc f _
            ⟨hne, (by intro q' hq'; rw [hmatch] at hq'; cases hq'), fun _ => Or.inl habs⟩
            (hnext ▸ ih false (nextState f) (by simp [hnext]))
        · simp only [Bool.not_eq_true] at habs
          have hemit : processFlag wd true f = (os_path_join wd f, false) := by
            simp [processFlag, hmatch, habs]
          have hne : os_path_join wd f ≠ [] := os_path_join_ne_nil wd f hwdne
          have hb : startswith (os_path_join wd f) ['/'] = true :=
            startswith_os_path_join wd f hwd
          obtain ⟨t, ht⟩ := startswith_slash_shape hb
          have hbm : matchPathFlag (os_path_join wd f) path_flags = PathMatch.none := by
            rw [ht]; exact matchPathFlag_slash t
          have hbnext : nextState (os_path_join wd f) = false := by
            simp [nextState, hbm]
          simp only [mrpifaGo, hemit, if_neg hne]
          exact Stable.cons inc (os_path_join wd f) _
            ⟨hne, (by intro q' hq'; rw [hbm] at hq'; cases hq'), fun _ => Or.inl hb⟩
            (hbnext ▸ ih false (nextState (os_path_join wd f)) (by simp [hbnext]))
      | false =>
        have hincf : inc = false := by
          cases inc with
          | false => rfl
          | true => exact absurd (hinc rfl) (by simp)
        subst hincf
        have hemit : processFlag wd false f = (f, false) := by
          simp [processFlag, hmatch]
        by_cases hne : f = []
        · simp only [mrpifaGo, hemit, hne, if_pos rfl]
          exact ih false false (by simp)
        · simp only [mrpifaGo, hemit, if_neg hne]
          exact Stable.cons false f _
            ⟨hne, (by intro q' hq'; rw [hmatch] at hq'; cases hq'), (by simp)⟩
            (hnext ▸ ih false (nextState f) (by simp [hnext]))

/-! ## Claim theorems -/

/-- C1: every call to `LoadSystemIncludes` hits the unresolved global name
`subprocess` (referenced on line 48 but never imported; only `os`, `re`
and `ycm_core` are) and raises `NameError` before the compiler is ever
invoked — the outcome is the same for every possible behaviour of the
compiler probe — and consequently `FlagsForFile`, which unconditionally
calls it, never returns a result either. -/
theorem c1_subprocess_name_error (compiler : CompilerBehavior)
    (filename script_dir : PyStr) :
    moduleNames.contains "subprocess" = false ∧
    LoadSystemIncludes compiler = Except.error (PyError.nameError "subprocess") ∧
    FlagsForFile filename script_dir compiler
      = Except.error (PyError.nameError "subprocess") :=
  ⟨by decide, rfl, rfl⟩

/-- C4 counterexample: in the launch-failure scenario the operation does
not fail with the spec's `ToolInvocationError`; it fails with the untyped
`NameError` on `subprocess`. -/
theorem c4_counterexample :
    LoadSystemIncludes CompilerBehavior.launchFailure
        ≠ Except.error PyError.toolInvocationError ∧
    LoadSystemIncludes CompilerBehavior.launchFailure
        = Except.error (PyError.nameError "subprocess") := by
  refine ⟨fun h => ?_, rfl⟩
  have h2 : (Except.error (PyError.nameError "subprocess") : Except PyError (List PyStr))
      = Except.error PyError.toolInvocationError := h
  simp at h2

/-- C4 amended: whenever the compiler invocation would fail to start, the
binary would be missing, or the markers would be absent from the output —
indeed under every compiler behaviour — `LoadSystemIncludes` fails with
the untyped, unhandled `NameError` on `subprocess`, never with a typed
`ToolInvocationError` (no such error type exists in the code). -/
theorem c4_amended (compiler : CompilerBehavior) :
    LoadSystemIncludes compiler = Except.error (PyError.nameError "subprocess") ∧
    LoadSystemIncludes compiler ≠ Except.error PyError.toolInvocationError := by
  refine ⟨rfl, fun h => ?_⟩
  have h2 : (Except.error (PyError.nameError "subprocess") : Except PyError (List PyStr))
      = Except.error PyError.toolInvocationError := h
  simp at h2

/-- C7 counterexample: for the non-empty (but relative) working directory
`p`, `MakeRelativePathsInFlagsAbsolute` is not idempotent: a second pass
rewrites `p/x` to `p/p/x`. -/
theorem c7_counterexample :
    "p".data ≠ ([] : PyStr) ∧
    MakeRelativePathsInFlagsAbsolute
        (MakeRelativePathsInFlagsAbsolute ["-I".data, "x".data] "p".data) "p".data
      ≠ MakeRelativePathsInFlagsAbsolute ["-I".data, "x".data] "p".data := by decide

/-- C7 amended: `MakeRelativePathsInFlagsAbsolute` is idempotent for any
fixed absolute working directory (one starting with the path-root marker
`/`): applying it to its own output yields the same list again. -/
theorem c7_amended (fl : List PyStr) (wd : PyStr)
    (hwd : startswith wd ['/'] = true) :
    MakeRelativePathsInFlagsAbsolute (MakeRelativePathsInFlagsAbsolute fl wd) wd
      = MakeRelativePathsInFlagsAbsolute fl wd := by
  have hwdne : wd ≠ [] := by
    obtain ⟨w, hw⟩ := startswith_slash_shape hwd
    simp [hw]
  unfold MakeRelativePathsInFlagsAbsolute
  rw [if_neg hwdne, if_neg hwdne]
  exact stable_fixed wd (go_stable wd hwd fl false false (fun h => h))

/-- C7 witness: the amended idempotence at a concrete input. -/
theorem c7_witness :
    MakeRelativePathsInFlagsAbsolute
        (MakeRelativePathsInFlagsAbsolute ["-I".data, "x".data] "/proj".data) "/proj".data
      = MakeRelativePathsInFlagsAbsolute ["-I".data, "x".data] "/proj".data :=
  c7_amended ["-I".data, "x".data] "/proj".data (by decide)

/-- C8: with an empty (falsy) working directory argument,
`MakeRelativePathsInFlagsAbsolute` returns the static flags unchanged:
no absolutization is performed on any entry. -/
theorem c8_empty_wd_identity (fl : List PyStr) :
    MakeRelativePathsInFlagsAbsolute fl [] = fl := rfl

/-- C10: the result of `FlagsForFile` does not depend on the filename
argument: for any two filenames, under the same static flags, script
directory and compiler probe behaviour, the results (flag list and cache
flag alike) are identical. -/
theorem c10_filename_independent (f1 f2 script_dir : PyStr)
    (compiler : CompilerBehavior) :
    FlagsForFile f1 script_dir compiler = FlagsForFile f2 script_dir compiler := rfl

theorem mrpifaGo_singleton (wd : PyStr) (mk : Bool) (f : PyStr) :
    mrpifaGo wd mk [f]
      = if (processFlag wd mk f).1 = [] then [] else [(processFlag wd mk f).1] := by
  simp [mrpifaGo]

theorem mrpifaGo_no_match (wd : PyStr) :
    ∀ fl : List PyStr, (∀ f ∈ fl, matchPathFlag f path_flags = PathMatch.none) →
      mrpifaGo wd false fl = fl.filter (fun f => !f.isEmpty) := by
  intro fl
  induction fl with
  | nil => intro _; rfl
  | cons f fs ih =>
    intro h
    have hf := h f (List.mem_cons_self f fs)
    have hemit : processFlag wd false f = (f, false) := by
      simp [processFlag, hf]
    have htail := ih (fun g hg => h g (List.mem_cons_of_mem _ hg))
    by_cases hne : f = []
    · subst hne
      simp [mrpifaGo, hemit, htail, List.filter_cons, List.isEmpty]
    · have hie : f.isEmpty = false := by
        cases f with
        | nil => exact absurd rfl hne
        | cons a b => rfl
      simp [mrpifaGo, hemit, hne, htail, List.filter_cons, hie]

/-- C2 counterexample: a flag list whose single entry is the empty string
matches no recognized path-flag prefix, yet with a non-empty working
directory the entry is dropped (the `if new_flag:` truthiness test of
line 41), so the input is not returned unchanged. -/
theorem c2_counterexample :
    matchPathFlag [] path_flags = PathMatch.none ∧
    "/proj".data ≠ ([] : PyStr) ∧
    MakeRelativePathsInFlagsAbsolute [[]] "/proj".data ≠ [[]] := by decide

/-- C2 amended: for every flag list none of whose entries equals or starts
with a recognized path-flag prefix, and every non-empty working
directory, `MakeRelativePathsInFlagsAbsolute` returns the input with
exactly its empty-string entries removed: no non-empty entry is ever
dropped or rewritten, and the relative order of entries is preserved. -/
theorem c2_amended (fl : List PyStr) (wd : PyStr) (hwd : wd ≠ [])
    (h : ∀ f ∈ fl, matchPathFlag f path_flags = PathMatch.none) :
    MakeRelativePathsInFlagsAbsolute fl wd = fl.filter (fun f => !f.isEmpty) := by
  unfold MakeRelativePathsInFlagsAbsolute
  rw [if_neg hwd]
  exact mrpifaGo_no_match wd fl h

/-- C2 witness: the amended claim at a concrete input with one empty
entry. -/
theorem c2_witness :
    MakeRelativePathsInFlagsAbsolute ["-Wall".data, [], "-DERIS_TESTS".data] "/proj".data
      = ["-Wall".data, "-DERIS_TESTS".data] :=
  Eq.trans
    (c2_amended ["-Wall".data, [], "-DERIS_TESTS".data] "/proj".data
      (by decide) (by decide))
    (by decide)

/-- C3 counterexample: the entry `-Ifoo` immediately follows the bare
path flag `-I` and does not start with `/`, yet the result at its
position is `-I/proj/foo`, not the plain join of `/proj` and `-Ifoo`: the
prefix-matching step still applies to an entry for which "expect path
next" was true, and overrides the joined value. -/
theorem c3_counterexample :
    startswith "-Ifoo".data ['/'] = false ∧
    MakeRelativePathsInFlagsAbsolute ["-I".data, "-Ifoo".data] "/proj".data
      = ["-I".data, "-I/proj/foo".data] ∧
    MakeRelativePathsInFlagsAbsolute ["-I".data, "-Ifoo".data] "/proj".data
      ≠ ["-I".data, os_path_join "/proj".data "-Ifoo".data] := by decide

/-- C3 amended: for every non-empty working directory, when an entry
immediately follows a bare path-flag prefix, does not start with `/`,
and itself neither equals nor starts with any recognized prefix, the
result at that position is exactly the join of the working directory and
the entry (the prefix-matching step runs on every entry, but cannot fire
on such an entry). -/
theorem c3_amended (wd p f : PyStr) (l1 l2 : List PyStr) (hwd : wd ≠ [])
    (hp : p ∈ path_flags) (habs : startswith f ['/'] = false)
    (hm : matchPathFlag f path_flags = PathMatch.none) :
    MakeRelativePathsInFlagsAbsolute (l1 ++ p :: f :: l2) wd
      = MakeRelativePathsInFlagsAbsolute (l1 ++ [p]) wd
        ++ os_path_join wd f :: mrpifaGo wd false l2 := by
  unfold MakeRelativePathsInFlagsAbsolute
  rw [if_neg hwd, if_neg hwd]
  have e1 : l1 ++ p :: f :: l2 = (l1 ++ [p]) ++ (f :: l2) := by simp
  rw [e1, mrpifaGo_append]
  have hgs : goState false (l1 ++ [p]) = true := by
    rw [goState_append]
    simp [goState, nextState, matchPathFlag_self hp]
  rw [hgs]
  exact congrArg _ (mrpifaGo_cons_joined wd f l2 hwd habs hm)

/-- C3 witness: the amended claim at a concrete input. -/
theorem c3_witness :
    MakeRelativePathsInFlagsAbsolute
        ["-Wall".data, "-iquote".data, "hdr".data, "-DX".data] "/proj".data
      = ["-Wall".data, "-iquote".data, "/proj/hdr".data, "-DX".data] :=
  Eq.trans (by decide)
    (Eq.trans
      (c3_amended "/proj".data "-iquote".data "hdr".data
        ["-Wall".data] ["-DX".data] (by decide) (by decide) (by decide) (by decide))
      (by decide))

/-- C5 counterexample: the entry `-isystemz` following a bare `-I` is a
relative path string, but it appears in the result as `-isystem/proj/z`,
not as the join of `/proj` and `-isystemz` the claim requires. -/
theorem c5_counterexample :
    startswith "-isystemz".data ['/'] = false ∧
    MakeRelativePathsInFlagsAbsolute ["-I".data, "-isystemz".data] "/proj".data
      = ["-I".data, "-isystem/proj/z".data] ∧
    MakeRelativePathsInFlagsAbsolute ["-I".data, "-isystemz".data] "/proj".data
      ≠ ["-I".data, os_path_join "/proj".data "-isystemz".data] := by decide

/-- C5 amended: for every non-empty working directory, an entry following
a bare `-I` that either is already absolute (starts with `/`) or matches
no recognized path-flag prefix appears in the result unchanged when
absolute, and as the join of the working directory and the entry when
relative. -/
theorem c5_amended (wd f : PyStr) (l1 l2 : List PyStr) (hwd : wd ≠ [])
    (hf : startswith f ['/'] = true ∨ matchPathFlag f path_flags = PathMatch.none) :
    MakeRelativePathsInFlagsAbsolute (l1 ++ "-I".data :: f :: l2) wd
      = MakeRelativePathsInFlagsAbsolute (l1 ++ ["-I".data]) wd
        ++ (if startswith f ['/'] then f else os_path_join wd f)
          :: mrpifaGo wd false l2 := by
  unfold MakeRelativePathsInFlagsAbsolute
  rw [if_neg hwd, if_neg hwd]
  have e1 : l1 ++ "-I".data :: f :: l2 = (l1 ++ ["-I".data]) ++ (f :: l2) := by simp
  rw [e1, mrpifaGo_append]
  have hgs : goState false (l1 ++ ["-I".data]) = true := by
    rw [goState_append]
    simp [goState, nextState, matchPathFlag_self (by decide : "-I".data ∈ path_flags)]
  rw [hgs]
  by_cases habs : startswith f ['/'] = true
  · rw [if_pos habs]
    exact congrArg _ (mrpifaGo_cons_abs wd f l2 habs)
  · have hm : matchPathFlag f path_flags = PathMatch.none := by
      rcases hf with h | h
      · exact absurd h habs
      · exact h
    rw [if_neg habs]
    exact congrArg _
      (mrpifaGo_cons_joined wd f l2 hwd (Bool.not_eq_true _ ▸ eq_false_of_ne_true habs) hm)

/-- C5 witness: the amended claim at a concrete input with a relative
path after `-I`. -/
theorem c5_witness :
    MakeRelativePathsInFlagsAbsolute ["-I".data, "inc".data] "/proj".data
      = ["-I".data, "/proj/inc".data] :=
  Eq.trans (by decide)
    (Eq.trans
      (c5_amended "/proj".data "inc".data [] [] (by decide) (Or.inr (by decide)))
      (by decide))

/-- C6: a single entry `--sysroot=` followed by a non-empty relative path
is rewritten in place to `--sysroot=` followed by the join of the working
directory and the path, and remains a single list entry. -/
theorem c6_sysroot_single_token (wd p : PyStr) (hwd : wd ≠ []) (hp : p ≠ [])
    (habs : startswith p ['/'] = false) :
    MakeRelativePathsInFlagsAbsolute ["--sysroot=".data ++ p] wd
      = ["--sysroot=".data ++ os_path_join wd p] := by
  obtain ⟨c, cs, rfl⟩ : ∃ c cs, p = c :: cs := by
    cases p with
    | nil => exact absurd rfl hp
    | cons c cs => exact ⟨c, cs, rfl⟩
  unfold MakeRelativePathsInFlagsAbsolute
  rw [if_neg hwd]
  have hm : matchPathFlag ("--sysroot=".data ++ c :: cs) path_flags
      = PathMatch.strict "--sysroot=".data := rfl
  have hdrop : ("--sysroot=".data ++ c :: cs).drop ("--sysroot=".data : PyStr).length
      = c :: cs := List.drop_left _ _
  have hemit : processFlag wd false ("--sysroot=".data ++ c :: cs)
      = ("--sysroot=".data ++ os_path_join wd (c :: cs), false) := by
    simp only [processFlag, hm, hdrop]
  have hne : ("--sysroot=".data ++ os_path_join wd (c :: cs) : PyStr) ≠ [] := by
    intro hcontra
    exact absurd (List.append_eq_nil.mp hcontra).1 (by decide)
  rw [mrpifaGo_singleton, hemit]
  exact if_neg hne

/-- C6 witness: the single-token `--sysroot=` rewrite at a concrete
input. -/
theorem c6_witness :
    MakeRelativePathsInFlagsAbsolute ["--sysroot=sys".data] "/proj".data
      = ["--sysroot=/proj/sys".data] :=
  Eq.trans (by decide)
    (Eq.trans
      (c6_sysroot_single_token "/proj".data "sys".data
        (by decide) (by decide) (by decide))
      (by decide))

theorem marker1At_lit (X : PyStr) :
    marker1At ("#include <...> search starts here:".data ++ X) = true := by
  simp [marker1At, marker1Pre, marker1Post, List.isPrefixOf]

theorem marker1At_cons_ne (c : Char) (t : PyStr) (hc : c ≠ '#') :
    marker1At (c :: t) = false := by
  have hb : (('#' : Char) == c) = false := by
    cases h : (('#' : Char) == c) with
    | false => rfl
    | true => exact absurd (eq_of_beq h).symm hc
  have h1 : (marker1Pre : PyStr).isPrefixOf (c :: t) = false := by
    rw [show (marker1Pre : PyStr) = '#' :: "include <".data from rfl]
    simp [List.isPrefixOf, hb]
  simp [marker1At, h1]

theorem findMarker1_append (pre X : PyStr) (h1 : ∀ ch ∈ pre, ch ≠ '#')
    (hm : marker1At X = true) :
    findMarker1 (pre ++ X) = some pre.length := by
  induction pre with
  | nil =>
    cases X with
    | nil => exact absurd hm (by decide)
    | cons c t => simp [findMarker1, hm]
  | cons c pre ih =>
    have hc : c ≠ '#' := h1 c (List.mem_cons_self _ _)
    have hmm : marker1At (c :: (pre ++ X)) = false := marker1At_cons_ne c _ hc
    simp [findMarker1, hmm, ih (fun ch hch => h1 ch (List.mem_cons_of_mem _ hch))]

theorem drop_append_len (a : List Char) :
    ∀ (b : List Char) (n : Nat), (a ++ b).drop (a.length + n) = b.drop n := by
  induction a with
  | nil => intro b n; simp
  | cons c cst ih =>
    intro b n
    have e : (c :: cst).length + n = (cst.length + n) + 1 := by
      simp [List.length_cons]
      omega
    rw [List.cons_append, e, List.drop_succ_cons, ih]

theorem regexSearchList_spec (pre mid post : PyStr)
    (h1 : ∀ ch ∈ pre, ch ≠ '#')
    (h2 : findSub marker2 (mid ++ marker2 ++ post) = some mid.length) :
    regexSearchList (pre ++ ("#include <...> search starts here:".data
      ++ (mid ++ (marker2 ++ post)))) = some mid := by
  have hfm : findMarker1 (pre ++ ("#include <...> search starts here:".data
      ++ (mid ++ (marker2 ++ post)))) = some pre.length :=
    findMarker1_append pre _ h1 (marker1At_lit _)
  have e10 : (marker1Pre : PyStr).length = 10 := rfl
  have e21 : (marker1Post : PyStr).length = 21 := rfl
  have earr : pre.length + ((10 : Nat) + 3) + 21 = pre.length + 34 := by omega
  have hd1 : (pre ++ ("#include <...> search starts here:".data
      ++ (mid ++ (marker2 ++ post)))).drop (pre.length + 34)
      = mid ++ (marker2 ++ post) := by
    rw [drop_append_len]
    simp
  rw [List.append_assoc] at h2
  simp only [regexSearchList, hfm, e10, e21, earr, hd1, h2]
  exact congrArg some (List.take_left mid (marker2 ++ post))

theorem decide_length_pos (p : PyStr) : (decide (p.length > 0) : Bool) = !p.isEmpty := by
  cases p <;> simp [List.isEmpty]

theorem buildIncludes_eq (ls : List PyStr) :
    buildIncludes ls = ((ls.map pyStrip).filter
      (fun p => !p.isEmpty && !(containsSub p "(framework directory)".data))).flatMap
      (fun p => ["-isystem".data, p]) := by
  induction ls with
  | nil => rfl
  | cons l ls ih =>
    have hcond : (decide ((pyStrip l).length > 0)
        && !(containsSub (pyStrip l) "(framework directory)".data))
        = (!(pyStrip l).isEmpty
           && !(containsSub (pyStrip l) "(framework directory)".data)) := by
      rw [decide_length_pos]
    cases hk : (!(pyStrip l).isEmpty
        && !(containsSub (pyStrip l) "(framework directory)".data)) with
    | true =>
      have hcode : (decide ((pyStrip l).length > 0)
          && !(containsSub (pyStrip l) "(framework directory)".data)) = true := by
        rw [hcond]; exact hk
      simp only [buildIncludes, List.map_cons, List.filter_cons, hcode, hk,
        if_true, List.flatMap_cons, List.cons_append, List.nil_append, ih]
    | false =>
      have hcode : (decide ((pyStrip l).length > 0)
          && !(containsSub (pyStrip l) "(framework directory)".data)) = false := by
        rw [hcond]; exact hk
      simp only [buildIncludes, List.map_cons, List.filter_cons, hcode, hk,
        Bool.false_eq_true, if_false, ih]

/-- C9: for compiler output containing the opening marker (first
occurrence, not preceded by any `#` that could start an earlier match)
followed by the closing marker `End of search list` (first occurrence at
the end of the captured text), the scraping step takes exactly the text
between the markers, splits it on line breaks, trims each line, discards
empty lines and lines containing `(framework directory)`, and returns, in
input order, the pair (`-isystem`, line) for each remaining line. -/
theorem c9_scrape_pairs (pre mid post : PyStr)
    (h1 : ∀ ch ∈ pre, ch ≠ '#')
    (h2 : findSub marker2 (mid ++ marker2 ++ post) = some mid.length) :
    DiscoverSystemIncludesParse
        (pre ++ ("#include <...> search starts here:".data
          ++ (mid ++ (marker2 ++ post))))
      = some (specIncludePairs mid) := by
  unfold DiscoverSystemIncludesParse
  rw [regexSearchList_spec pre mid post h1 h2]
  exact congrArg some (buildIncludes_eq (pySplit '\n' mid))

/-- C9 witness: compiler output whose captured section holds one
framework-directory line and two regular lines yields exactly the two
`-isystem` pairs, framework line excluded. -/
theorem c9_witness :
    DiscoverSystemIncludesParse
        ("v\n".data ++ ("#include <...> search starts here:".data
          ++ ("\n /a\n /f (framework directory)\n /b\n".data ++ (marker2 ++ ".\nx".data))))
      = some ["-isystem".data, "/a".data, "-isystem".data, "/b".data] :=
  Eq.trans
    (c9_scrape_pairs "v\n".data "\n /a\n /f (framework directory)\n /b\n".data ".\nx".data
      (by decide) (by decide))
    (by decide)
